import Mathlib

/-!
Verification of the minecraft-asset-explorer client against its specification.

The definitions below are shallow embeddings of the TypeScript source:

* `src/types/assets.ts` (the client type declarations),
* `src/App.tsx` (scan orchestration, selection, export and preview-cache logic),
* `src/utils/jsonPreview.tsx` (the JSON syntax highlighter).

Conventions used throughout the embedding:

* JavaScript strings are Lean `String`s; where character-level reasoning is
  needed (`parentFolderNodeId`, the JSON highlighter) we work on `List Char`.
* A JavaScript value of type `string | null` (or a possibly-absent record
  field) is an `Option String`; JavaScript truthiness of such a value
  (`if (x)`) is `jsTruthy`, which is false for both `null`/`undefined` and
  the empty string.
* JavaScript objects used as string-keyed maps (`Record<string, T>`) are
  association lists `List (String × T)` in insertion order, matching
  `Object.entries` order for the non-numeric keys used here.
* `async` functions that await backend commands are embedded as pure
  functions from the pre-state and the environment's responses to the
  post-state paired with the ordered list of backend calls they issue; each
  recorded call is paired with the client state in effect at the moment the
  call is made.
-/

namespace MAE

/-- `ROOT_NODE_ID` from App.tsx line 50. -/
def ROOT_NODE_ID : String := "root"

/-- `PREVIEW_CACHE_LIMIT` from App.tsx line 57. -/
def PREVIEW_CACHE_LIMIT : Nat := 24

/-- JavaScript truthiness of a `string | null | undefined` value:
`null`, `undefined` and the empty string are falsy. -/
def jsTruthy : Option String → Bool
  | none => false
  | some s => !(s == "")

/-! ## C1: container type values (src/unnamed/part_005, the client type declarations) -/

/-- The values admitted by the union type
`AssetContainerType = "directory" | "zip" | "jar"`
declared at line 16 of the client type declarations (src/unnamed/part_005). -/
def assetContainerTypeValues : List String := ["directory", "zip", "jar"]

/-- Modelled from the spec: the container type values of the external
interface, "Container type values: `directory | zip | jar | assetIndex`"
(spec §6), also listed in §3.  The backend that produces these values is not
part of the frontend sources; this definition follows the spec's words for
comparison with the client declaration `assetContainerTypeValues`. -/
def specContainerTypeValues : List String := ["directory", "zip", "jar", "assetIndex"]

/-! ## C7: `parentFolderNodeId` (App.tsx lines 93-101) -/

/-- The marker `"/file:"` used by leaf node ids, as a character list. -/
def fileMarker : List Char := ['/', 'f', 'i', 'l', 'e', ':']

/-- Search downward from index `i` for the highest index at which `pat`
occurs in `s`; embeds `String.prototype.lastIndexOf` (absence, JS `-1`,
becomes `none`). -/
def lastIndexOfAux (pat s : List Char) : Nat → Option Nat
  | 0 => if pat.isPrefixOf s then some 0 else none
  | i + 1 => if pat.isPrefixOf (s.drop (i + 1)) then some (i + 1) else lastIndexOfAux pat s i

/-- `s.lastIndexOf(pat)`: the highest index at which `pat` occurs in `s`. -/
def lastIndexOf (pat s : List Char) : Option Nat :=
  lastIndexOfAux pat s s.length

/-- `parentFolderNodeId` from App.tsx lines 93-101:
`markerIndex = nodeId.lastIndexOf("/file:"); if (markerIndex <= 0) return
ROOT_NODE_ID; return nodeId.slice(0, markerIndex)`.  The JS `-1` (no
occurrence) is the `none` branch. -/
def parentFolderNodeId (nodeId : List Char) : List Char :=
  match lastIndexOf fileMarker nodeId with
  | none => ROOT_NODE_ID.toList
  | some markerIndex =>
      if markerIndex = 0 then ROOT_NODE_ID.toList
      else nodeId.take markerIndex

/-! ## C10: the preview cache update (App.tsx lines 1183-1199) -/

/-- The `setPreviewCache` callback of `loadPreview` (App.tsx lines
1188-1199): if the asset id is already a key the cache is unchanged,
otherwise the oldest entries are dropped so that at most
`PREVIEW_CACHE_LIMIT - 1` survive and the new entry is appended.
`Object.entries`/`Object.fromEntries` on the insertion-ordered map is the
identity on the association list.  The enclosing `loadPreview` also returns
early (before invoking `get_asset_preview`) when the id is already cached,
via the same key test. -/
def loadPreviewCacheUpdate {α : Type} (cache : List (String × α)) (assetId : String) (preview : α) :
    List (String × α) :=
  if cache.any (fun e => e.fst == assetId) then cache
  else
    let entries := cache
    let keptEntries :=
      if entries.length ≥ PREVIEW_CACHE_LIMIT then
        entries.drop (entries.length - (PREVIEW_CACHE_LIMIT - 1))
      else entries
    keptEntries ++ [(assetId, preview)]

/-! ## C5: `reconcileSelectionState` state updates (App.tsx lines 408-477)

The backend's `reconcile_asset_ids` response carries
`idMap : Record<string, string>`, embedded as a partial map
`String → Option String` (`none` = key absent, i.e. JS `undefined`).
The three `set*` callbacks applied to the response are embedded as pure
functions of the id map and the previous value. -/

/-- The `setSelectedAssets` callback (App.tsx lines 430-439): each currently
selected id is looked up in the id map and kept (as its mapped id) only when
the lookup result is truthy (`if (mapped)`), so absent keys and
empty-string values are dropped. -/
def reconcileSelectedAssets (idMap : String → Option String) (current : List String) :
    List String :=
  current.filterMap (fun assetId =>
    match idMap assetId with
    | some mapped => if mapped == "" then none else some mapped
    | none => none)

/-- The `setSelectionAnchorId` callback (App.tsx lines 441-446):
`response.idMap[current] ?? null` — the nullish-coalescing operator keeps
any present value (even the empty string) and turns an absent key into
`null`. -/
def reconcileAnchor (idMap : String → Option String) (current : Option String) :
    Option String :=
  match current with
  | none => none
  | some c => idMap c

/-- The `setPreviewCache` callback (App.tsx lines 448-457): each cache entry
is re-keyed to its mapped id when the lookup is truthy (`if (mapped)`) and
discarded otherwise. -/
def reconcilePreviewCache {α : Type} (idMap : String → Option String)
    (cache : List (String × α)) : List (String × α) :=
  cache.filterMap (fun e =>
    match idMap e.fst with
    | some mapped => if mapped == "" then none else some (mapped, e.snd)
    | none => none)

/-! ## C8: `renderHighlightedJson` (src/utils/jsonPreview.tsx lines 15-64)

The function walks the global-flag regex matches over the input.  The regex
engine itself is not re-implemented; instead the match stream is an
arbitrary list of `(start, length)` pairs constrained by `execWF`, the
contract of repeated `RegExp.exec` with the `g` flag: each match starts at
or after the previous `lastIndex`, is non-empty (no alternative of the
token regex matches the empty string), lies inside the input, and by the
definition of a match its text equals `value.slice(start, start + length)`.
Only the text content of the emitted `<span>` elements is modelled (the
class names affect presentation only). -/

/-- The texts of the spans pushed by the `while` loop and the trailing
remainder push of `renderHighlightedJson`, in order.  `lastIndex` is the
loop variable of the same name. -/
def renderPieces (value : List Char) : Nat → List (Nat × Nat) → List (List Char)
  | lastIndex, [] =>
      if lastIndex < value.length then [value.drop lastIndex] else []
  | lastIndex, (start, len) :: ms =>
      (if lastIndex < start then [(value.drop lastIndex).take (start - lastIndex)] else [])
        ++ ((value.drop start).take len :: renderPieces value (start + len) ms)

/-- Well-formedness of a match stream produced by `tokenRegex.exec` starting
with `lastIndex` at the given position: matches are in order, non-empty and
in bounds. -/
def execWF (value : List Char) : Nat → List (Nat × Nat) → Bool
  | _, [] => true
  | lastIndex, (start, len) :: ms =>
      decide (lastIndex ≤ start) && decide (0 < len) &&
        decide (start + len ≤ value.length) && execWF value (start + len) ms

/-! ## C9: `applySelection` (App.tsx lines 693-730) -/

/-- The `SelectionModifiers` type from the client type declarations. -/
structure SelectionModifiersM where
  shiftKey : Bool
  metaKey : Bool
  ctrlKey : Bool
deriving DecidableEq

/-- `Array.prototype.indexOf`: index of the first occurrence, `none` for the
JS `-1`. -/
def firstIndexOf (a : String) : List String → Option Nat
  | [] => none
  | x :: xs => if x = a then some 0 else (firstIndexOf a xs).map (· + 1)

/-- The non-shift branches of the `setSelectedAssets` callback in
`applySelection` (App.tsx lines 711-721): ctrl/meta toggles the clicked id
in the selected set, otherwise the selection becomes the singleton clicked
id.  The `Set` is its list of elements in insertion order. -/
def applySelectionFallback (current : List String) (modifiers : SelectionModifiersM)
    (assetId : String) : List String :=
  if modifiers.metaKey || modifiers.ctrlKey then
    if current.contains assetId then current.filter (fun x => !(x == assetId))
    else current ++ [assetId]
  else [assetId]

/-- The `setSelectedAssets` callback of `applySelection` (App.tsx lines
696-722).  `ids` is `assets.map(a => a.assetId)`; the guard
`modifiers.shiftKey && selectionAnchorId` tests JS truthiness of the anchor
(so a `null` or empty-string anchor falls through), and the range branch
fires only when both `indexOf` calls succeed. -/
def applySelectionSet (ids : List String) (selectionAnchorId : Option String)
    (current : List String) (modifiers : SelectionModifiersM) (assetId : String) :
    List String :=
  if modifiers.shiftKey && jsTruthy selectionAnchorId then
    match selectionAnchorId with
    | none => applySelectionFallback current modifiers assetId
    | some anchorId =>
        match firstIndexOf anchorId ids, firstIndexOf assetId ids with
        | some anchorIndex, some targetIndex =>
            let startIndex := if anchorIndex < targetIndex then anchorIndex else targetIndex
            let endIndex := if anchorIndex < targetIndex then targetIndex else anchorIndex
            (ids.drop startIndex).take (endIndex + 1 - startIndex)
        | _, _ => applySelectionFallback current modifiers assetId
  else applySelectionFallback current modifiers assetId

/-- `applySelection` (App.tsx lines 693-730), restricted to the two pieces
of state the claim is about: the new selected set and the new anchor
(`if (!modifiers.shiftKey) setSelectionAnchorId(assetId)`). -/
def applySelection (ids : List String) (selectionAnchorId : Option String)
    (current : List String) (modifiers : SelectionModifiersM) (assetId : String) :
    List String × Option String :=
  (applySelectionSet ids selectionAnchorId current modifiers assetId,
   if !modifiers.shiftKey then some assetId else selectionAnchorId)

/-! ## C3: `waitForScanToStop` (App.tsx lines 577-593) -/

/-- The part of a `get_scan_status` response inspected by
`waitForScanToStop`. -/
structure ScanStatusLite where
  lifecycle : String
  isRefreshing : Bool
deriving DecidableEq

/-- The early-return test of the polling loop:
`status.lifecycle !== "scanning" && !status.isRefreshing`. -/
def scanStopped (status : ScanStatusLite) : Bool :=
  (status.lifecycle != "scanning") && (!status.isRefreshing)

/-- How `waitForScanToStop` exits, tagged with the number of loop
iterations executed before exiting.  `fuelExhausted` is an artefact of the
fuel-indexed embedding and is proved unreachable for sufficient fuel. -/
inductive WaitExit where
  | stopped (iteration : Nat)
  | pollFailed (iteration : Nat)
  | deadlineReached (iteration : Nat)
  | fuelExhausted
deriving DecidableEq

/-- `waitForScanToStop` (App.tsx lines 577-593).  `poll k` is the result of
the `get_scan_status` invocation on iteration `k` (`none` = the invoke
threw, the `catch { return }` branch); `timeOf k` is `Date.now()` at the
loop-condition check of iteration `k` (the `await` of an 80 ms
`setTimeout` separates consecutive checks); `deadline` is the
`Date.now() + 6000` computed on entry.  The loop body is:
check the deadline, poll, return on a stopped status or a failed poll,
else sleep 80 ms and repeat. -/
def waitForScanToStop (poll : Nat → Option ScanStatusLite) (timeOf : Nat → Nat)
    (deadline : Nat) : Nat → Nat → WaitExit
  | 0, _ => WaitExit.fuelExhausted
  | fuel + 1, k =>
      if timeOf k < deadline then
        match poll k with
        | none => WaitExit.pollFailed k
        | some status =>
            if scanStopped status then WaitExit.stopped k
            else waitForScanToStop poll timeOf deadline fuel (k + 1)
      else WaitExit.deadlineReached k

/-! ## The client state and `startScan` / `saveAssets` / `copyAssets`
(App.tsx lines 178-245, 595-691, 745-864)

`AppState` collects the React state hooks and the mutable refs read or
written by the embedded functions.  Fields irrelevant to every embedded
function (layout refs, the root-path input box, the instance list, search
filter toggles, timing refs used only for throttling/perf logging such as
`scanStartAtRef`, `lastStatusAtRef`, `searchRequestSeqRef`,
`searchOffsetRef`) are omitted.  Record fields carry only the data the
embedded functions inspect: an `AssetRecordM` is identified by its
`assetId`, tree children by their node ids. -/

/-- A `ScanProgressEvent` as stored in the `progress` state. -/
structure ScanProgressM where
  scanId : String
  scannedContainers : Nat
  totalContainers : Nat
  assetCount : Nat
  phase : String
  currentSource : Option String
deriving DecidableEq

/-- An `AssetRecord`, restricted to the only field the embedded client
functions inspect. -/
structure AssetRecordM where
  assetId : String
deriving DecidableEq

/-- An `AssetPreviewResponse`. -/
structure PreviewM where
  mime : String
  base64 : String
deriving DecidableEq

/-- An `ExportProgressEvent` as stored in the `exportProgress` state. -/
structure ExportProgressM where
  operationId : String
  kind : String
  requestedCount : Nat
  processedCount : Nat
  successCount : Nat
  failedCount : Nat
  cancelled : Bool
deriving DecidableEq

/-- An `ExportFailure`. -/
structure ExportFailureM where
  assetId : String
  key : String
  error : String
deriving DecidableEq

/-- The `ExportSummary` type of App.tsx lines 74-83. -/
structure ExportSummaryM where
  operationId : String
  kind : String
  requestedCount : Nat
  processedCount : Nat
  successCount : Nat
  failedCount : Nat
  cancelled : Bool
  failures : List ExportFailureM
deriving DecidableEq

/-- The client state: React `useState` hooks and `useRef` cells of `App`
(App.tsx lines 179-245) read or written by `startScan`, `saveAssets` and
`copyAssets`. -/
structure AppState where
  prismRootCommitted : String
  selectedInstance : String
  includeVanilla : Bool
  includeMods : Bool
  includeResourcepacks : Bool
  scanId : Option String
  lifecycle : String
  isRefreshing : Bool
  progress : Option ScanProgressM
  treeByNodeId : List (String × List String)
  expandedNodes : List String
  selectedFolderId : String
  assets : List AssetRecordM
  searchTotal : Nat
  hasMoreSearch : Bool
  isSearchLoading : Bool
  selectedAssets : List String
  selectionAnchorId : Option String
  activeAsset : Option AssetRecordM
  previewCache : List (String × PreviewM)
  audioFormat : String
  isStartingScan : Bool
  isSaving : Bool
  isCopying : Bool
  exportProgress : Option ExportProgressM
  exportSummary : Option ExportSummaryM
  statusLine : String
  activeScanIdRef : Option String
  activeExportOperationIdRef : Option String
  terminalScanSyncRef : Option String
  lastScanConfigKeyRef : Option String
  lastScanProgressAt : Nat
  isSyncingScanStatus : Bool
deriving DecidableEq

/-- The initial client state, from the `useState` initial values of
App.tsx lines 179-245. -/
def initialAppState : AppState where
  prismRootCommitted := ""
  selectedInstance := ""
  includeVanilla := true
  includeMods := true
  includeResourcepacks := true
  scanId := none
  lifecycle := "idle"
  isRefreshing := false
  progress := none
  treeByNodeId := [(ROOT_NODE_ID, [])]
  expandedNodes := []
  selectedFolderId := ROOT_NODE_ID
  assets := []
  searchTotal := 0
  hasMoreSearch := false
  isSearchLoading := false
  selectedAssets := []
  selectionAnchorId := none
  activeAsset := none
  previewCache := []
  audioFormat := "original"
  isStartingScan := false
  isSaving := false
  isCopying := false
  exportProgress := none
  exportSummary := none
  statusLine := "Ready."
  activeScanIdRef := none
  activeExportOperationIdRef := none
  terminalScanSyncRef := none
  lastScanConfigKeyRef := none
  lastScanProgressAt := 0
  isSyncingScanStatus := false

/-- The scan config key template string of App.tsx line 605. -/
def scanConfigKey (st : AppState) : String :=
  st.prismRootCommitted ++ "::" ++ st.selectedInstance ++ "::"
    ++ (if st.includeVanilla then "v" else "-")
    ++ (if st.includeMods then "m" else "-")
    ++ (if st.includeResourcepacks then "r" else "-")

/-- A backend interaction performed by `startScan`, in program order.
`waitForStop` summarises the `waitForScanToStop` call (whose internal
`get_scan_status` polls are the subject of C3); `syncScanStatus`
summarises the fire-and-forget `void syncScanStatus(...)` call. -/
inductive BackendCall where
  | cancelScan (scanId : String)
  | waitForStop (scanId : String)
  | startScanCmd (prismRoot instanceFolder : String)
      (includeVanilla includeMods includeResourcepacks forceRescan : Bool)
  | syncScanStatus (scanId : String)
deriving DecidableEq

/-- The `StartScanResponse` fields used by `startScan`. -/
structure StartScanResponseM where
  scanId : String
  cacheHit : Bool
deriving DecidableEq

/-- The `start_scan` request built at App.tsx lines 639-648. -/
def startScanReq (st : AppState) (forceRescan : Bool) : BackendCall :=
  BackendCall.startScanCmd st.prismRootCommitted st.selectedInstance
    st.includeVanilla st.includeMods st.includeResourcepacks forceRescan

/-- The block of state resets of App.tsx lines 618-637, executed after the
previous scan has been cancelled and awaited and before `start_scan` is
invoked: `resetSearchState()` (assets, total, has-more, loading), the tree
map, expanded nodes, selected folder, selected assets, anchor, active
asset, preview cache, progress, refreshing flag, scan id and ref, export
progress and summary, lifecycle, terminal-sync ref, progress timestamp,
status-sync flag, and the status line. -/
def clearedScanState (st : AppState) : AppState :=
  { st with
    assets := []
    searchTotal := 0
    hasMoreSearch := false
    isSearchLoading := false
    treeByNodeId := [(ROOT_NODE_ID, [])]
    expandedNodes := []
    selectedFolderId := ROOT_NODE_ID
    selectedAssets := []
    selectionAnchorId := none
    activeAsset := none
    previewCache := []
    progress := none
    isRefreshing := false
    scanId := none
    activeScanIdRef := none
    exportProgress := none
    exportSummary := none
    lifecycle := "scanning"
    terminalScanSyncRef := none
    lastScanProgressAt := 0
    isSyncingScanStatus := false
    statusLine := "Estimating containers · 0/0 containers · 0 assets" }

/-- The tail of `startScan` from the reset block onward (App.tsx lines
618-681): clear the presentation state, invoke `start_scan`, apply the
response (or the catch branch), call `syncScanStatus`, and run the
`finally` that clears `isStartingScan`.  `callsSoFar` are the backend
calls already issued (cancellation of the previous scan). -/
def startScanCleared (st2 : AppState) (req : BackendCall)
    (resp : Except String StartScanResponseM)
    (callsSoFar : List (BackendCall × AppState)) :
    AppState × List (BackendCall × AppState) :=
  let st3 := clearedScanState st2
  match resp with
  | Except.ok r =>
      let st4 := { st3 with activeScanIdRef := some r.scanId, scanId := some r.scanId }
      let st5 :=
        if r.cacheHit then
          { st4 with
            lifecycle := "scanning"
            isRefreshing := true
            progress := some ⟨r.scanId, 0, 1, 0, "refreshing", some "cache"⟩
            statusLine := "Loading cached index..." }
        else
          { st4 with
            progress := some ⟨r.scanId, 0, 0, 0, "estimating", none⟩
            statusLine := "Estimating containers · 0/0 containers · 0 assets" }
      ({ st5 with isStartingScan := false },
       callsSoFar ++ [(req, st3), (BackendCall.syncScanStatus r.scanId, st5)])
  | Except.error e =>
      ({ st3 with statusLine := e, lifecycle := "error", isStartingScan := false },
       callsSoFar ++ [(req, st3)])

/-- The cancellation of the previous scan (App.tsx lines 611-616):
`if (previousScanId) { await invoke("cancel_scan", ...).catch(...);
setStatusLine("Stopping previous scan..."); await
waitForScanToStop(previousScanId); }` — the guard is JS truthiness of
`activeScanIdRef.current`. -/
def startScanLocked (st1 : AppState) (req : BackendCall)
    (resp : Except String StartScanResponseM) :
    AppState × List (BackendCall × AppState) :=
  match st1.activeScanIdRef with
  | some previousScanId =>
      if previousScanId = "" then startScanCleared st1 req resp []
      else
        let stWaiting := { st1 with statusLine := "Stopping previous scan..." }
        startScanCleared stWaiting req resp
          [(BackendCall.cancelScan previousScanId, st1),
           (BackendCall.waitForStop previousScanId, stWaiting)]
  | none => startScanCleared st1 req resp []

/-- `startScan` (App.tsx lines 595-691).  `resp` is the environment: the
result of the `start_scan` invocation (`Except.error` = the invoke threw,
handled by the `catch` branch; `cancel_scan` cannot throw because of its
own `.catch`).  The result pairs the final state with the ordered backend
calls, each paired with the client state at the moment of the call.  The
guards are: missing committed root or instance (silent return), then all
source toggles off (status-line prompt, return). -/
def startScan (st : AppState) (forceRescan : Bool)
    (resp : Except String StartScanResponseM) :
    AppState × List (BackendCall × AppState) :=
  if st.prismRootCommitted = "" ∨ st.selectedInstance = "" then (st, [])
  else if st.includeVanilla = false ∧ st.includeMods = false ∧ st.includeResourcepacks = false then
    ({ st with statusLine := "Select at least one source to scan." }, [])
  else
    startScanLocked
      { st with
        lastScanConfigKeyRef := some (scanConfigKey st)
        isStartingScan := true }
      (startScanReq st forceRescan) resp

/-- The presentation-observable caches named by the spec are at their
empty initial values (the `useState` initials of App.tsx lines 199-221):
search results and total, folder-tree map, expanded nodes, selected
folder, selected assets, selection anchor, active asset, preview cache,
and progress. -/
def PresentationCleared (st : AppState) : Prop :=
  st.assets = [] ∧ st.searchTotal = 0 ∧ st.hasMoreSearch = false ∧
    st.isSearchLoading = false ∧
    st.treeByNodeId = [(ROOT_NODE_ID, [])] ∧ st.expandedNodes = [] ∧
    st.selectedFolderId = ROOT_NODE_ID ∧ st.selectedAssets = [] ∧
    st.selectionAnchorId = none ∧ st.activeAsset = none ∧
    st.previewCache = [] ∧ st.progress = none

instance (st : AppState) : Decidable (PresentationCleared st) := by
  unfold PresentationCleared; infer_instance

/-- The ordering property claimed for `startScan` once its guards pass:
the previous scan (when one is recorded) is cancelled and awaited first,
and the `start_scan` command is issued at a moment when every
presentation-observable cache is at its initial value, with nothing but
the cancellation of the previous scan preceding it. -/
def StartScanOrdering (st : AppState) (forceRescan : Bool)
    (resp : Except String StartScanResponseM) : Prop :=
  (∀ p, st.activeScanIdRef = some p → p ≠ "" →
      ∃ s0 s1,
        (startScan st forceRescan resp).2.get? 0 = some (BackendCall.cancelScan p, s0) ∧
        (startScan st forceRescan resp).2.get? 1 = some (BackendCall.waitForStop p, s1)) ∧
  ∃ i stAt,
    (startScan st forceRescan resp).2.get? i = some (startScanReq st forceRescan, stAt) ∧
    PresentationCleared stAt ∧
    (∀ j c s, j < i → (startScan st forceRescan resp).2.get? j = some (c, s) →
      ∃ p, st.activeScanIdRef = some p ∧
        (c = BackendCall.cancelScan p ∨ c = BackendCall.waitForStop p))

/-! ## C4: `saveAssets` and `copyAssets` (App.tsx lines 745-864) -/

/-- A backend command invoked by the export entry points. -/
inductive ExportCall where
  | saveCmd (scanId : String) (assetIds : List String) (destinationDir : String)
      (audioFormat : String) (operationId : String)
  | copyCmd (scanId : String) (assetIds : List String) (audioFormat : String)
      (operationId : String)
deriving DecidableEq

/-- The `SaveAssetsResult` fields used by `saveAssets`. -/
structure SaveAssetsResultM where
  requestedCount : Nat
  successCount : Nat
  cancelled : Bool
  savedFiles : List String
deriving DecidableEq

/-- The `CopyResult` fields used by `copyAssets`. -/
structure CopyResultM where
  requestedCount : Nat
  successCount : Nat
  cancelled : Bool
deriving DecidableEq

/-- The status line written on a successful save (App.tsx lines 790-794). -/
def saveFinishedLine (r : SaveAssetsResultM) : String :=
  "Save finished: " ++ toString r.successCount ++ "/" ++ toString r.requestedCount
    ++ " saved" ++ (if r.cancelled then " (cancelled)" else "") ++ "."

/-- The status line written on a successful copy (App.tsx lines 848-852). -/
def copyFinishedLine (r : CopyResultM) : String :=
  "Copy finished: " ++ toString r.successCount ++ "/" ++ toString r.requestedCount
    ++ " copied" ++ (if r.cancelled then " (cancelled)" else "") ++ "."

/-- `saveAssets` (App.tsx lines 745-807).  `dialogResult` is the outcome of
the `open({directory: true, multiple: false})` dialog (`none` = `null` or
an array, the rejected shapes); `operationId` is the `crypto.randomUUID()`
value; `resp` the `save_assets` result.  Guards in source order: empty id
list, another export already active (JS truthiness of the ref), no active
scan (JS truthiness), dialog cancelled.  The trailing
`openSavedDestination` call only opens a file browser and is omitted. -/
def saveAssets (st : AppState) (assetIds : List String) (dialogResult : Option String)
    (operationId : String) (resp : Except String SaveAssetsResultM) :
    AppState × List ExportCall :=
  if assetIds.isEmpty then (st, [])
  else if jsTruthy st.activeExportOperationIdRef then
    ({ st with statusLine := "Another export operation is already running." }, [])
  else
    match st.activeScanIdRef with
    | none => (st, [])
    | some resolvedScanId =>
        if resolvedScanId = "" then (st, [])
        else
          match dialogResult with
          | none => (st, [])
          | some selectedPath =>
              if selectedPath = "" then (st, [])
              else
                let st1 :=
                  { st with
                    activeExportOperationIdRef := some operationId
                    exportSummary := none
                    exportProgress :=
                      some ⟨operationId, "save", assetIds.length, 0, 0, 0, false⟩
                    isSaving := true }
                let call := ExportCall.saveCmd resolvedScanId assetIds selectedPath
                  st.audioFormat operationId
                match resp with
                | Except.ok r =>
                    ({ st1 with statusLine := saveFinishedLine r, isSaving := false }, [call])
                | Except.error e =>
                    ({ st1 with
                        activeExportOperationIdRef := none
                        exportProgress := none
                        statusLine := e
                        isSaving := false }, [call])

/-- `copyAssets` (App.tsx lines 809-864).  Same protocol as `saveAssets`
without the directory dialog. -/
def copyAssets (st : AppState) (assetIds : List String) (operationId : String)
    (resp : Except String CopyResultM) : AppState × List ExportCall :=
  if assetIds.isEmpty then (st, [])
  else if jsTruthy st.activeExportOperationIdRef then
    ({ st with statusLine := "Another export operation is already running." }, [])
  else
    match st.activeScanIdRef with
    | none => (st, [])
    | some resolvedScanId =>
        if resolvedScanId = "" then (st, [])
        else
          let st1 :=
            { st with
              activeExportOperationIdRef := some operationId
              exportSummary := none
              exportProgress := some ⟨operationId, "copy", assetIds.length, 0, 0, 0, false⟩
              isCopying := true }
          let call := ExportCall.copyCmd resolvedScanId assetIds st.audioFormat operationId
          match resp with
          | Except.ok r =>
              ({ st1 with statusLine := copyFinishedLine r, isCopying := false }, [call])
          | Except.error e =>
              ({ st1 with
                  activeExportOperationIdRef := none
                  exportProgress := none
                  statusLine := e
                  isCopying := false }, [call])

/-! ## Concrete states and environments used by the witness theorems -/

/-- A client state mid-session: committed root and instance, an active
previous scan, and some presentation state from that scan. -/
def stWithPrev : AppState :=
  { initialAppState with
    prismRootCommitted := "/prism"
    selectedInstance := "Fabulous"
    scanId := some "scan-0"
    lifecycle := "completed"
    activeScanIdRef := some "scan-0"
    assets := [⟨"a1"⟩]
    searchTotal := 1
    selectedAssets := ["a1"]
    selectionAnchorId := some "a1"
    activeAsset := some ⟨"a1"⟩ }

/-- A client state with a committed root and instance but every source
toggle off. -/
def stNoSources : AppState :=
  { initialAppState with
    prismRootCommitted := "/prism"
    selectedInstance := "Fabulous"
    includeVanilla := false
    includeMods := false
    includeResourcepacks := false }

/-- A client state with an export operation already active. -/
def stBusyExport : AppState :=
  { initialAppState with
    prismRootCommitted := "/prism"
    selectedInstance := "Fabulous"
    activeScanIdRef := some "scan-0"
    activeExportOperationIdRef := some "op-0"
    exportProgress := some ⟨"op-0", "save", 3, 1, 1, 0, false⟩ }

/-- A status poller that always reports a still-running scan. -/
def pollScanning : Nat → Option ScanStatusLite := fun _ => some ⟨"scanning", false⟩

/-- A clock advancing by exactly the 80 ms sleep per iteration. -/
def timeTicks : Nat → Nat := fun k => 80 * k

/-- A reconciliation id map sending `"a1"` to `"b1"` and everything else
to absent. -/
def idMapEx : String → Option String := fun a => if a = "a1" then some "b1" else none

/-! # Theorems -/

/-! ## Helper lemmas -/

theorem presentationCleared_clearedScanState (st : AppState) :
    PresentationCleared (clearedScanState st) :=
  ⟨rfl, rfl, rfl, rfl, rfl, rfl, rfl, rfl, rfl, rfl, rfl, rfl⟩

/-! ## C1 -/

/-- C1 (code bug): the spec's interface fixes the container type values as
exactly `{directory, zip, jar, assetIndex}` and requires `assetIndex` to be
admissible, but the client type declaration `AssetContainerType`
(src/unnamed/part_005 line 16) admits only `{directory, zip, jar}`:
`assetIndex` — the container type of the vanilla asset-index store that the
spec's discovery component emits — is not an admissible value of the
declared type. -/
theorem containerType_assetIndex_missing :
    "assetIndex" ∈ specContainerTypeValues ∧
      "assetIndex" ∉ assetContainerTypeValues ∧
      ∀ t, t ∈ assetContainerTypeValues → t ∈ specContainerTypeValues := by
  decide

/-! ## C10 -/

/-- C10: the preview-cache insertion of `loadPreview` is bounded by
`PREVIEW_CACHE_LIMIT = 24`: a load whose asset id is already cached leaves
the cache unchanged; inserting a new entry yields `min (size + 1) 24`
entries — so a cache at or beyond the limit ends with exactly 24 entries
including the new one — the survivors are a suffix (the newest entries,
nothing dropped below the limit); and a cache within the limit stays
within the limit. -/
theorem loadPreviewCacheUpdate_of_cached {α : Type} {cache : List (String × α)}
    {assetId : String} {preview : α}
    (h : cache.any (fun e => e.fst == assetId) = true) :
    loadPreviewCacheUpdate cache assetId preview = cache := by
  simp [loadPreviewCacheUpdate, h]

theorem loadPreviewCacheUpdate_of_full {α : Type} {cache : List (String × α)}
    {assetId : String} {preview : α}
    (h : cache.any (fun e => e.fst == assetId) = false)
    (hfull : PREVIEW_CACHE_LIMIT ≤ cache.length) :
    loadPreviewCacheUpdate cache assetId preview
      = cache.drop (cache.length - (PREVIEW_CACHE_LIMIT - 1)) ++ [(assetId, preview)] := by
  simp [loadPreviewCacheUpdate, h, hfull]

theorem loadPreviewCacheUpdate_of_small {α : Type} {cache : List (String × α)}
    {assetId : String} {preview : α}
    (h : cache.any (fun e => e.fst == assetId) = false)
    (hfull : ¬ PREVIEW_CACHE_LIMIT ≤ cache.length) :
    loadPreviewCacheUpdate cache assetId preview = cache ++ [(assetId, preview)] := by
  simp [loadPreviewCacheUpdate, h, hfull]

/-- C10: the preview-cache insertion of `loadPreview` is bounded by
`PREVIEW_CACHE_LIMIT = 24`: a load whose asset id is already cached leaves
the cache unchanged; inserting a new entry yields `min (size + 1) 24`
entries — so a cache at or beyond the limit ends with exactly 24 entries
including the new one — the survivors are a suffix (the newest entries,
with nothing dropped while below the limit); and a cache within the limit
stays within the limit. -/
theorem loadPreview_cache_bounded {α : Type} (cache : List (String × α))
    (assetId : String) (preview : α) :
    (cache.any (fun e => e.fst == assetId) = true →
      loadPreviewCacheUpdate cache assetId preview = cache) ∧
    (cache.any (fun e => e.fst == assetId) = false →
      (loadPreviewCacheUpdate cache assetId preview).length
          = min (cache.length + 1) PREVIEW_CACHE_LIMIT ∧
      ∃ k, loadPreviewCacheUpdate cache assetId preview
          = cache.drop k ++ [(assetId, preview)] ∧
        (cache.length < PREVIEW_CACHE_LIMIT → k = 0)) ∧
    (cache.length ≤ PREVIEW_CACHE_LIMIT →
      (loadPreviewCacheUpdate cache assetId preview).length ≤ PREVIEW_CACHE_LIMIT) := by
  refine ⟨fun h => loadPreviewCacheUpdate_of_cached h, fun h => ?_, fun hlen => ?_⟩
  · by_cases hfull : PREVIEW_CACHE_LIMIT ≤ cache.length
    · refine ⟨?_, cache.length - (PREVIEW_CACHE_LIMIT - 1),
        loadPreviewCacheUpdate_of_full h hfull, fun hlt => absurd hfull (by omega)⟩
      rw [loadPreviewCacheUpdate_of_full h hfull]
      simp only [List.length_append, List.length_drop, List.length_cons,
        List.length_nil, PREVIEW_CACHE_LIMIT] at *
      omega
    · refine ⟨?_, 0, by simpa using loadPreviewCacheUpdate_of_small h hfull, fun _ => rfl⟩
      rw [loadPreviewCacheUpdate_of_small h hfull]
      simp only [List.length_append, List.length_cons, List.length_nil,
        PREVIEW_CACHE_LIMIT] at *
      omega
  · cases hany : cache.any (fun e => e.fst == assetId) with
    | true => rw [loadPreviewCacheUpdate_of_cached hany]; exact hlen
    | false =>
        by_cases hfull : PREVIEW_CACHE_LIMIT ≤ cache.length
        · rw [loadPreviewCacheUpdate_of_full hany hfull]
          simp only [List.length_append, List.length_drop, List.length_cons,
            List.length_nil, PREVIEW_CACHE_LIMIT] at *
          omega
        · rw [loadPreviewCacheUpdate_of_small hany hfull]
          simp only [List.length_append, List.length_cons, List.length_nil,
            PREVIEW_CACHE_LIMIT] at *
          omega

/-- Witness for C10 at a one-entry cache and a fresh asset id. -/
theorem loadPreview_cache_bounded_witness :
    ([(("a" : String), (0 : Nat))].any (fun e => e.fst == "b") = false) ∧
      (loadPreviewCacheUpdate [(("a" : String), (0 : Nat))] "b" 0).length
        = min ([(("a" : String), (0 : Nat))].length + 1) PREVIEW_CACHE_LIMIT :=
  ⟨by decide, ((loadPreview_cache_bounded [("a", 0)] "b" 0).2.1 (by decide)).1⟩

/-! ## C6 -/

/-- C6: with every source toggle off, `startScan` invokes no backend
command at all (neither `cancel_scan` nor `start_scan`), and the client
state is unchanged except for the status-line prompt (which is set
whenever the root/instance guards pass, and nothing at all changes when
they do not). -/
theorem startScan_rejects_empty_sources (st : AppState) (forceRescan : Bool)
    (resp : Except String StartScanResponseM)
    (h : st.includeVanilla = false ∧ st.includeMods = false ∧
      st.includeResourcepacks = false) :
    (startScan st forceRescan resp).2 = [] ∧
      ((startScan st forceRescan resp).1 = st ∨
        (startScan st forceRescan resp).1
          = { st with statusLine := "Select at least one source to scan." }) ∧
      (st.prismRootCommitted ≠ "" → st.selectedInstance ≠ "" →
        (startScan st forceRescan resp).1
          = { st with statusLine := "Select at least one source to scan." }) := by
  by_cases hg : st.prismRootCommitted = "" ∨ st.selectedInstance = ""
  · refine ⟨by simp [startScan, hg], Or.inl (by simp [startScan, hg]), ?_⟩
    intro hroot hinst
    exact absurd hg (by simp [hroot, hinst])
  · exact ⟨by simp [startScan, hg, h], Or.inr (by simp [startScan, hg, h]),
      fun _ _ => by simp [startScan, hg, h]⟩

/-- Witness for C6 at a concrete state with all toggles off. -/
theorem startScan_rejects_empty_sources_witness :
    (stNoSources.includeVanilla = false ∧ stNoSources.includeMods = false ∧
        stNoSources.includeResourcepacks = false) ∧
      (startScan stNoSources false (Except.error "boom")).2 = [] ∧
      (startScan stNoSources false (Except.error "boom")).1
        = { stNoSources with statusLine := "Select at least one source to scan." } :=
  ⟨by decide,
   (startScan_rejects_empty_sources stNoSources false (Except.error "boom")
      (by decide)).1,
   (startScan_rejects_empty_sources stNoSources false (Except.error "boom")
      (by decide)).2.2 (by decide) (by decide)⟩

/-! ## C4 -/

/-- C4: at most one export operation is active per session.  When the
recorded operation id is truthy (an operation id is a
`crypto.randomUUID()` value, hence non-empty), both `saveAssets` and
`copyAssets` return without invoking any backend command and without
changing the recorded operation id, the export progress, or the export
summary; and whenever a call leaves the recorded operation id different
from what it found, it found the falsy (no-active-operation) state — a new
id is installed only when none is active. -/
theorem export_single_operation (st : AppState) (assetIds : List String)
    (dialogResult : Option String) (operationId : String)
    (respS : Except String SaveAssetsResultM) (respC : Except String CopyResultM) :
    (jsTruthy st.activeExportOperationIdRef = true →
      (saveAssets st assetIds dialogResult operationId respS).2 = [] ∧
      (saveAssets st assetIds dialogResult operationId respS).1.activeExportOperationIdRef
        = st.activeExportOperationIdRef ∧
      (saveAssets st assetIds dialogResult operationId respS).1.exportProgress
        = st.exportProgress ∧
      (saveAssets st assetIds dialogResult operationId respS).1.exportSummary
        = st.exportSummary ∧
      (copyAssets st assetIds operationId respC).2 = [] ∧
      (copyAssets st assetIds operationId respC).1.activeExportOperationIdRef
        = st.activeExportOperationIdRef ∧
      (copyAssets st assetIds operationId respC).1.exportProgress = st.exportProgress ∧
      (copyAssets st assetIds operationId respC).1.exportSummary = st.exportSummary) ∧
    ((saveAssets st assetIds dialogResult operationId respS).1.activeExportOperationIdRef
        ≠ st.activeExportOperationIdRef →
      jsTruthy st.activeExportOperationIdRef = false) ∧
    ((copyAssets st assetIds operationId respC).1.activeExportOperationIdRef
        ≠ st.activeExportOperationIdRef →
      jsTruthy st.activeExportOperationIdRef = false) := by
  refine ⟨fun htruthy => ?_, fun hchange => ?_, fun hchange => ?_⟩
  · by_cases he : assetIds.isEmpty <;>
      simp [saveAssets, copyAssets, he, htruthy]
  · by_cases htruthy : jsTruthy st.activeExportOperationIdRef
    · exfalso
      apply hchange
      by_cases he : assetIds.isEmpty <;> simp [saveAssets, he, htruthy]
    · simpa using htruthy
  · by_cases htruthy : jsTruthy st.activeExportOperationIdRef
    · exfalso
      apply hchange
      by_cases he : assetIds.isEmpty <;> simp [copyAssets, he, htruthy]
    · simpa using htruthy

/-- Witness for C4 at a concrete state with an active export operation. -/
theorem export_single_operation_witness :
    jsTruthy stBusyExport.activeExportOperationIdRef = true ∧
      (saveAssets stBusyExport ["a1"] (some "/dest") "op-1" (Except.error "e")).2 = [] ∧
      (copyAssets stBusyExport ["a1"] "op-1" (Except.error "e")).2 = [] := by
  have h := (export_single_operation stBusyExport ["a1"] (some "/dest") "op-1"
    (Except.error "e") (Except.error "e")).1 (by decide)
  exact ⟨by decide, h.1, h.2.2.2.2.1⟩

/-! ## C5 -/

/-- C5: after reconciliation the selection is exactly the image of the old
selection under the returned id map, the anchor is replaced by its mapped
id or cleared, and the preview cache is re-keyed or discarded.  The map's
values are asset ids of the new index (per the spec, non-empty digest
strings), captured by the `hvals` hypothesis; the code drops an
(unrealizable) empty-string value the same way as an absent key, because
the lookup is tested for JS truthiness. -/
theorem reconcile_maps_selection (idMap : String → Option String)
    (hvals : ∀ a m, idMap a = some m → m ≠ "")
    (sel : List String) (anchor : Option String) (cache : List (String × PreviewM)) :
    (∀ x, x ∈ reconcileSelectedAssets idMap sel ↔ ∃ a, a ∈ sel ∧ idMap a = some x) ∧
    (∀ c m, anchor = some c → idMap c = some m →
      reconcileAnchor idMap anchor = some m) ∧
    (∀ c, anchor = some c → idMap c = none → reconcileAnchor idMap anchor = none) ∧
    (∀ k v, (k, v) ∈ reconcilePreviewCache idMap cache ↔
      ∃ k0, (k0, v) ∈ cache ∧ idMap k0 = some k) := by
  have hstep : ∀ (a x : String),
      (match idMap a with
        | some mapped => if mapped == "" then none else some mapped
        | none => none) = some x ↔ idMap a = some x := by
    intro a x
    cases ha : idMap a with
    | none => simp
    | some m =>
        have hm := hvals a m ha
        simp [show (m == "") = false from by simpa using hm]
  refine ⟨fun x => ?_, fun c m hc hm => ?_, fun c hc hm => ?_, fun k v => ?_⟩
  · rw [reconcileSelectedAssets, List.mem_filterMap]
    exact ⟨fun ⟨a, ha, hfa⟩ => ⟨a, ha, (hstep a x).mp hfa⟩,
      fun ⟨a, ha, hfa⟩ => ⟨a, ha, (hstep a x).mpr hfa⟩⟩
  · rw [hc]; simpa [reconcileAnchor] using hm
  · rw [hc]; simpa [reconcileAnchor] using hm
  · rw [reconcilePreviewCache, List.mem_filterMap]
    constructor
    · rintro ⟨⟨k0, v0⟩, hmem, hf⟩
      cases ha : idMap k0 with
      | none => simp [ha] at hf
      | some m =>
          have hm := hvals k0 m ha
          simp [ha, show (m == "") = false from by simpa using hm] at hf
          obtain ⟨hk, hv⟩ := hf
          subst hk
          subst hv
          exact ⟨k0, hmem, ha⟩
    · rintro ⟨k0, hmem, hf⟩
      refine ⟨(k0, v), hmem, ?_⟩
      have hk := hvals k0 k hf
      simp [hf, show (k == "") = false from by simpa using hk]

/-- Witness for C5 at a concrete id map and selection. -/
theorem reconcile_maps_selection_witness :
    "b1" ∈ reconcileSelectedAssets idMapEx ["a1"] ∧
      reconcileAnchor idMapEx (some "a1") = some "b1" := by
  have hvals : ∀ a m, idMapEx a = some m → m ≠ "" := by
    intro a m hm
    unfold idMapEx at hm
    split at hm
    · injection hm with h2
      subst h2
      decide
    · exact Option.noConfusion hm
  have h := reconcile_maps_selection idMapEx hvals ["a1"] (some "a1") []
  exact ⟨(h.1 "b1").mpr ⟨"a1", by decide, by decide⟩,
    h.2.1 "a1" "b1" rfl (by decide)⟩

/-! ## C8 -/

theorem renderPieces_flatten (value : List Char) :
    ∀ (ms : List (Nat × Nat)) (lastIndex : Nat), execWF value lastIndex ms = true →
      (renderPieces value lastIndex ms).flatten = value.drop lastIndex := by
  intro ms
  induction ms with
  | nil =>
      intro lastIndex _
      by_cases hlt : lastIndex < value.length
      · simp [renderPieces, hlt]
      · simp [renderPieces, hlt, List.drop_eq_nil_of_le (Nat.le_of_not_lt hlt)]
  | cons m ms ih =>
      obtain ⟨start, len⟩ := m
      intro lastIndex hwf
      simp only [execWF, Bool.and_eq_true, decide_eq_true_eq] at hwf
      obtain ⟨⟨⟨hle, _⟩, _⟩, hrest⟩ := hwf
      have htail : (value.drop start).take len ++ value.drop (start + len)
          = value.drop start := by
        rw [← List.drop_drop len start value, List.take_append_drop]
      simp only [renderPieces]
      by_cases hlt : lastIndex < start
      · rw [if_pos hlt, List.singleton_append, List.flatten_cons, List.flatten_cons,
          ih (start + len) hrest, htail]
        have hdrop : value.drop start = (value.drop lastIndex).drop (start - lastIndex) := by
          rw [List.drop_drop]
          congr 1
          omega
        rw [hdrop, List.take_append_drop]
      · have heq : lastIndex = start := Nat.le_antisymm hle (Nat.le_of_not_lt hlt)
        subst heq
        rw [if_neg hlt, List.nil_append, List.flatten_cons, ih (lastIndex + len) hrest, htail]

/-- C8: `renderHighlightedJson` loses no text: for every input and every
match stream satisfying the `exec` contract (`execWF`), the concatenated
text contents of the emitted spans — leading plain slice, token, …,
trailing remainder — equal the input exactly. -/
theorem renderHighlightedJson_preserves_text (value : List Char)
    (ms : List (Nat × Nat)) (h : execWF value 0 ms = true) :
    (renderPieces value 0 ms).flatten = value := by
  rw [renderPieces_flatten value ms 0 h, List.drop_zero]

/-- Witness for C8 on the input `abc` with one single-character match at
index 1. -/
theorem renderHighlightedJson_preserves_text_witness :
    execWF ['a', 'b', 'c'] 0 [(1, 1)] = true ∧
      (renderPieces ['a', 'b', 'c'] 0 [(1, 1)]).flatten = ['a', 'b', 'c'] :=
  ⟨by decide, renderHighlightedJson_preserves_text ['a', 'b', 'c'] [(1, 1)] (by decide)⟩

/-! ## C7 -/

theorem drop_append_length {α : Type} (l₁ l₂ : List α) (k : Nat) :
    (l₁ ++ l₂).drop (l₁.length + k) = l₂.drop k := by
  rw [← List.drop_drop, List.drop_left]

theorem isPrefixOf_eq_false_of_head {x y : Char} {xs ys : List Char}
    (h : (x == y) = false) : (x :: xs).isPrefixOf (y :: ys) = false := by
  simp [List.isPrefixOf, h]

theorem lastIndexOfAux_eq_some (pat s : List Char) (j : Nat)
    (hj : pat.isPrefixOf (s.drop j) = true)
    (habove : ∀ m, j < m → pat.isPrefixOf (s.drop m) = false) :
    ∀ i, j ≤ i → lastIndexOfAux pat s i = some j := by
  intro i
  induction i with
  | zero =>
      intro hji
      have hj0 : j = 0 := Nat.le_zero.mp hji
      subst hj0
      simp only [lastIndexOfAux]
      rw [if_pos (by simpa using hj)]
  | succ n ihn =>
      intro hji
      by_cases hcase : j = n + 1
      · subst hcase
        simp only [lastIndexOfAux]
        rw [if_pos hj]
      · have hle : j ≤ n := by omega
        simp only [lastIndexOfAux]
        rw [if_neg (by simp [habove (n + 1) (by omega)])]
        exact ihn hle

theorem lastIndexOfAux_eq_none (pat s : List Char)
    (h : ∀ m, pat.isPrefixOf (s.drop m) = false) :
    ∀ i, lastIndexOfAux pat s i = none := by
  intro i
  induction i with
  | zero =>
      simp only [lastIndexOfAux]
      rw [if_neg (by simp [show pat.isPrefixOf s = false from by simpa using h 0])]
  | succ n ihn =>
      simp only [lastIndexOfAux]
      rw [if_neg (by simp [h (n + 1)])]
      exact ihn

theorem parentFolderNodeId_inverts (p a : List Char) (hp : p ≠ [])
    (ha : ∀ k, k ≤ a.length → fileMarker.isPrefixOf (a.drop k) = false) :
    parentFolderNodeId (p ++ fileMarker ++ a) = p := by
  have hlenp : 0 < p.length := List.length_pos.mpr hp
  have hs : p ++ fileMarker ++ a = p ++ (fileMarker ++ a) := by
    rw [List.append_assoc]
  have hocc : fileMarker.isPrefixOf ((p ++ fileMarker ++ a).drop p.length) = true := by
    rw [hs, List.drop_left]
    exact List.isPrefixOf_iff_prefix.mpr (List.prefix_append _ _)
  have habove : ∀ m, p.length < m →
      fileMarker.isPrefixOf ((p ++ fileMarker ++ a).drop m) = false := by
    intro m hm
    obtain ⟨q, rfl⟩ : ∃ q, m = p.length + q := ⟨m - p.length, by omega⟩
    have hq : 1 ≤ q := by omega
    rw [hs, drop_append_length]
    by_cases hq6 : 6 ≤ q
    · obtain ⟨k, rfl⟩ : ∃ k, q = 6 + k := ⟨q - 6, by omega⟩
      have h6 : (fileMarker ++ a).drop (6 + k) = a.drop k := drop_append_length fileMarker a k
      rw [h6]
      by_cases hk : k ≤ a.length
      · exact ha k hk
      · rw [List.drop_eq_nil_of_le (by omega)]
        rfl
    · interval_cases q <;> exact isPrefixOf_eq_false_of_head (by decide)
  have hfind : lastIndexOf fileMarker (p ++ fileMarker ++ a) = some p.length := by
    unfold lastIndexOf
    refine lastIndexOfAux_eq_some _ _ p.length hocc habove _ ?_
    rw [hs]
    simp [List.length_append]
  unfold parentFolderNodeId
  rw [hfind]
  show (if p.length = 0 then ROOT_NODE_ID.toList
    else (p ++ fileMarker ++ a).take p.length) = p
  rw [if_neg (by omega), hs, List.take_left]

theorem parentFolderNodeId_root (nodeId : List Char)
    (h : ∀ m, m < nodeId.length → fileMarker.isPrefixOf (nodeId.drop (m + 1)) = false) :
    parentFolderNodeId nodeId = ROOT_NODE_ID.toList := by
  have habove : ∀ m, 0 < m → fileMarker.isPrefixOf (nodeId.drop m) = false := by
    intro m hm
    by_cases hlen : m ≤ nodeId.length
    · obtain ⟨m0, rfl⟩ : ∃ m0, m = m0 + 1 := ⟨m - 1, by omega⟩
      exact h m0 (by omega)
    · rw [List.drop_eq_nil_of_le (by omega)]
      rfl
  unfold parentFolderNodeId
  cases hb : fileMarker.isPrefixOf nodeId with
  | true =>
      have hfind : lastIndexOf fileMarker nodeId = some 0 := by
        unfold lastIndexOf
        exact lastIndexOfAux_eq_some _ _ 0 (by simpa using hb) (fun m hm => habove m hm) _
          (Nat.zero_le _)
      rw [hfind]
      simp
  | false =>
      have hfind : lastIndexOf fileMarker nodeId = none := by
        unfold lastIndexOf
        refine lastIndexOfAux_eq_none _ _ (fun m => ?_) _
        cases m with
        | zero => simpa using hb
        | succ m0 => exact habove (m0 + 1) (Nat.succ_pos _)
      rw [hfind]

/-- C7: `parentFolderNodeId` inverts the leaf id format: for every
non-empty `parentId` and every `assetId` containing no occurrence of
`"/file:"`, `parentFolderNodeId (parentId ++ "/file:" ++ assetId)` is
`parentId`; and for every node id whose occurrences of `"/file:"` (if
any) are all at index 0, the result is `"root"`. -/
theorem parentFolderNodeId_spec :
    (∀ (p a : List Char), p ≠ [] →
      (∀ k, k ≤ a.length → fileMarker.isPrefixOf (a.drop k) = false) →
      parentFolderNodeId (p ++ fileMarker ++ a) = p) ∧
    (∀ nodeId : List Char,
      (∀ m, m < nodeId.length → fileMarker.isPrefixOf (nodeId.drop (m + 1)) = false) →
      parentFolderNodeId nodeId = ROOT_NODE_ID.toList) :=
  ⟨parentFolderNodeId_inverts, parentFolderNodeId_root⟩

/-- Witness for C7: a leaf id `a/file:b` resolves to parent `a`, and a
marker-free id `xy` resolves to `root`. -/
theorem parentFolderNodeId_spec_witness :
    (['a'] : List Char) ≠ [] ∧
      (∀ k, k ≤ (['b'] : List Char).length →
        fileMarker.isPrefixOf ((['b'] : List Char).drop k) = false) ∧
      parentFolderNodeId (['a'] ++ fileMarker ++ ['b']) = ['a'] ∧
      parentFolderNodeId (['x', 'y'] : List Char) = ROOT_NODE_ID.toList :=
  ⟨by decide, by decide,
   parentFolderNodeId_spec.1 ['a'] ['b'] (by decide) (by decide),
   parentFolderNodeId_spec.2 ['x', 'y'] (by decide)⟩

/-! ## C9 -/

theorem firstIndexOf_some_of_mem {a : String} :
    ∀ {l : List String}, a ∈ l → ∃ i, firstIndexOf a l = some i
  | [], hmem => absurd hmem (List.not_mem_nil a)
  | x :: xs, hmem => by
      by_cases hx : x = a
      · exact ⟨0, by simp [firstIndexOf, hx]⟩
      · rcases List.mem_cons.mp hmem with h | h
        · exact absurd h.symm hx
        · obtain ⟨i, hi⟩ := firstIndexOf_some_of_mem h
          exact ⟨i + 1, by simp [firstIndexOf, hx, hi]⟩

theorem firstIndexOf_getElem {a : String} :
    ∀ {l : List String} {i : Nat}, firstIndexOf a l = some i → l[i]? = some a
  | [], i, h => by simp [firstIndexOf] at h
  | x :: xs, i, h => by
      by_cases hx : x = a
      · simp only [firstIndexOf, if_pos hx] at h
        obtain rfl : (0 : Nat) = i := Option.some.inj h
        simp [hx]
      · simp only [firstIndexOf, if_neg hx] at h
        rcases Option.map_eq_some'.mp h with ⟨j, hj, hji⟩
        subst hji
        simpa using firstIndexOf_getElem hj

theorem mem_drop_take_iff {α : Type} {l : List α} {lo n : Nat} {x : α} :
    x ∈ (l.drop lo).take n ↔ ∃ k, lo ≤ k ∧ k < lo + n ∧ l[k]? = some x := by
  rw [List.mem_iff_getElem?]
  constructor
  · rintro ⟨m, hm⟩
    rw [List.getElem?_take] at hm
    by_cases hmn : m < n
    · rw [if_pos hmn, List.getElem?_drop] at hm
      exact ⟨lo + m, Nat.le_add_right _ _, by omega, hm⟩
    · rw [if_neg hmn] at hm
      exact absurd hm (by simp)
  · rintro ⟨k, hk1, hk2, hk3⟩
    refine ⟨k - lo, ?_⟩
    rw [List.getElem?_take, if_pos (by omega), List.getElem?_drop,
      show lo + (k - lo) = k from by omega]
    exact hk3

/-- C9: `applySelection` implements shift range selection: with the shift
modifier and a truthy anchor (a non-empty anchor id; a `null` or
empty-string anchor is falsy and skips the branch), when both the anchor
and the clicked asset occur in the current list (their `indexOf` calls
succeed at positions `i` and `j`), the new selected set consists of
exactly the ids at the inclusive index range between `i` and `j` in list
order, and the anchor is left unchanged; when either index lookup fails,
the call falls through to the unmodified or ctrl/meta behaviour. -/
theorem applySelection_range_spec :
    (∀ (ids current : List String) (anchorId assetId : String)
        (modifiers : SelectionModifiersM) (i j : Nat),
      modifiers.shiftKey = true → anchorId ≠ "" →
      firstIndexOf anchorId ids = some i → firstIndexOf assetId ids = some j →
      (∀ x, x ∈ (applySelection ids (some anchorId) current modifiers assetId).1 ↔
        ∃ k, min i j ≤ k ∧ k ≤ max i j ∧ ids[k]? = some x) ∧
      (applySelection ids (some anchorId) current modifiers assetId).2
        = some anchorId) ∧
    (∀ (ids current : List String) (anchorId assetId : String)
        (modifiers : SelectionModifiersM),
      modifiers.shiftKey = true →
      (firstIndexOf anchorId ids = none ∨ firstIndexOf assetId ids = none) →
      (applySelection ids (some anchorId) current modifiers assetId).1
        = applySelectionFallback current modifiers assetId) := by
  constructor
  · intro ids current anchorId assetId modifiers i j hshift hanchor hi hj
    have htruthy : jsTruthy (some anchorId) = true := by
      simp [jsTruthy, hanchor]
    constructor
    · intro x
      have hs : (if i < j then i else j) = min i j := by split <;> omega
      have he : (if i < j then j else i) = max i j := by split <;> omega
      simp only [applySelection, applySelectionSet, hshift, htruthy, Bool.and_self,
        if_true, hi, hj]
      rw [hs, he, mem_drop_take_iff]
      constructor
      · rintro ⟨k, h1, h2, h3⟩
        exact ⟨k, h1, by omega, h3⟩
      · rintro ⟨k, h1, h2, h3⟩
        exact ⟨k, h1, by omega, h3⟩
    · simp [applySelection, hshift]
  · intro ids current anchorId assetId modifiers hshift hnone
    by_cases htruthy : jsTruthy (some anchorId) = true
    · simp only [applySelection, applySelectionSet, hshift, htruthy, Bool.and_self,
        if_true]
      cases hA : firstIndexOf anchorId ids with
      | none => rfl
      | some i =>
          cases hT : firstIndexOf assetId ids with
          | none => rfl
          | some j =>
              rcases hnone with h | h
              · rw [hA] at h
                exact absurd h (by simp)
              · rw [hT] at h
                exact absurd h (by simp)
    · have hf : jsTruthy (some anchorId) = false := by simpa using htruthy
      simp [applySelection, applySelectionSet, hshift, hf]

/-- Witness for C9: shift-clicking `c` with anchor `a` in `[a, b, c]`
selects the full range, in particular `b`, and keeps the anchor. -/
theorem applySelection_range_spec_witness :
    (("a" : String) ≠ "") ∧
      firstIndexOf "a" ["a", "b", "c"] = some 0 ∧
      firstIndexOf "c" ["a", "b", "c"] = some 2 ∧
      "b" ∈ (applySelection ["a", "b", "c"] (some "a") [] ⟨true, false, false⟩ "c").1 ∧
      (applySelection ["a", "b", "c"] (some "a") [] ⟨true, false, false⟩ "c").2
        = some "a" := by
  have h := applySelection_range_spec.1 ["a", "b", "c"] [] "a" "c"
    ⟨true, false, false⟩ 0 2 rfl (by decide) (by decide) (by decide)
  exact ⟨by decide, by decide, by decide,
    (h.1 "b").mpr ⟨1, by decide, by decide, by decide⟩, h.2⟩

/-! ## C3 -/

theorem waitForScanToStop_fuel (poll : Nat → Option ScanStatusLite)
    (timeOf : Nat → Nat) (deadline : Nat)
    (hstep : ∀ j, timeOf j + 80 ≤ timeOf (j + 1)) :
    ∀ (fuel k : Nat), deadline ≤ timeOf k + 80 * fuel →
      waitForScanToStop poll timeOf deadline (fuel + 1) k ≠ WaitExit.fuelExhausted := by
  intro fuel
  induction fuel with
  | zero =>
      intro k hk
      simp only [waitForScanToStop]
      rw [if_neg (by omega)]
      simp
  | succ n ihn =>
      intro k hk
      simp only [waitForScanToStop]
      by_cases hlt : timeOf k < deadline
      · rw [if_pos hlt]
        cases hpoll : poll k with
        | none => simp
        | some status =>
            cases hstopped : scanStopped status with
            | true => simp [hstopped]
            | false =>
                simp only [hstopped, Bool.false_eq_true, if_false]
                exact ihn (k + 1) (by have := hstep k; omega)
      · rw [if_neg hlt]
        simp

/-- C3: `waitForScanToStop` terminates for every poll behaviour: it
returns `stopped` as soon as a poll reports a non-scanning lifecycle with
`isRefreshing` false, returns `pollFailed` as soon as a poll throws, and
in every case exits once `Date.now()` reaches the deadline of
`Date.now() + 6000` computed at entry — 76 loop iterations always suffice
because each iteration ends with an 80 ms sleep, so the new scan proceeds
regardless of whether the prior scan actually stopped. -/
theorem waitForScanToStop_terminates (poll : Nat → Option ScanStatusLite)
    (timeOf : Nat → Nat) (deadline : Nat)
    (hstep : ∀ j, timeOf j + 80 ≤ timeOf (j + 1))
    (hdl : deadline = timeOf 0 + 6000) :
    waitForScanToStop poll timeOf deadline 76 0 ≠ WaitExit.fuelExhausted ∧
    (∀ fuel k status, timeOf k < deadline → poll k = some status →
      scanStopped status = true →
      waitForScanToStop poll timeOf deadline (fuel + 1) k = WaitExit.stopped k) ∧
    (∀ fuel k, timeOf k < deadline → poll k = none →
      waitForScanToStop poll timeOf deadline (fuel + 1) k = WaitExit.pollFailed k) ∧
    (∀ fuel k, deadline ≤ timeOf k →
      waitForScanToStop poll timeOf deadline (fuel + 1) k = WaitExit.deadlineReached k) := by
  refine ⟨?_, ?_, ?_, ?_⟩
  · have h76 : (76 : Nat) = 75 + 1 := rfl
    rw [h76]
    exact waitForScanToStop_fuel poll timeOf deadline hstep 75 0 (by omega)
  · intro fuel k status hlt hpoll hstopped
    simp only [waitForScanToStop]
    rw [if_pos hlt, hpoll]
    simp [hstopped]
  · intro fuel k hlt hpoll
    simp only [waitForScanToStop]
    rw [if_pos hlt, hpoll]
  · intro fuel k hge
    simp only [waitForScanToStop]
    rw [if_neg (by omega)]

/-- Witness for C3: with the poller forever reporting a running scan and a
clock advancing exactly 80 ms per iteration, the loop still exits within
the fuel bound. -/
theorem waitForScanToStop_terminates_witness :
    (∀ j, timeTicks j + 80 ≤ timeTicks (j + 1)) ∧
      waitForScanToStop pollScanning timeTicks 6000 76 0 ≠ WaitExit.fuelExhausted :=
  ⟨fun j => by unfold timeTicks; omega,
   (waitForScanToStop_terminates pollScanning timeTicks 6000
      (fun j => by unfold timeTicks; omega) (by decide)).1⟩

/-! ## C2 -/

theorem startScanLocked_none (st1 : AppState) (req : BackendCall)
    (resp : Except String StartScanResponseM) (h : st1.activeScanIdRef = none) :
    startScanLocked st1 req resp = startScanCleared st1 req resp [] := by
  unfold startScanLocked
  rw [h]

theorem startScanLocked_empty (st1 : AppState) (req : BackendCall)
    (resp : Except String StartScanResponseM) (h : st1.activeScanIdRef = some "") :
    startScanLocked st1 req resp = startScanCleared st1 req resp [] := by
  unfold startScanLocked
  rw [h]
  simp

theorem startScanLocked_some (st1 : AppState) (req : BackendCall)
    (resp : Except String StartScanResponseM) {p : String}
    (h : st1.activeScanIdRef = some p) (hp : p ≠ "") :
    startScanLocked st1 req resp
      = startScanCleared { st1 with statusLine := "Stopping previous scan..." } req resp
          [(BackendCall.cancelScan p, st1),
           (BackendCall.waitForStop p,
             { st1 with statusLine := "Stopping previous scan..." })] := by
  unfold startScanLocked
  rw [h]
  simp [hp]

theorem startScanCleared_trace (st2 : AppState) (req : BackendCall)
    (resp : Except String StartScanResponseM)
    (callsSoFar : List (BackendCall × AppState)) :
    ∃ rest, (startScanCleared st2 req resp callsSoFar).2
      = callsSoFar ++ (req, clearedScanState st2) :: rest := by
  cases resp with
  | ok r => exact ⟨_, rfl⟩
  | error e => exact ⟨[], rfl⟩

/-- C2: whenever `startScan` proceeds past its guards, the previously
active scan (when recorded) is cancelled and awaited first, every
presentation-observable cache is reset to its initial value, and only
then is the `start_scan` command invoked: the call paired with the
`start_scan` request carries a state in which all those caches are
empty, and nothing precedes it in the backend-call trace except the
cancellation of the previous scan. -/
theorem startScan_resets_before_start (st : AppState) (forceRescan : Bool)
    (resp : Except String StartScanResponseM)
    (hroot : st.prismRootCommitted ≠ "") (hinst : st.selectedInstance ≠ "")
    (htoggles : st.includeVanilla = true ∨ st.includeMods = true ∨
      st.includeResourcepacks = true) :
    StartScanOrdering st forceRescan resp := by
  have hguard1 : ¬(st.prismRootCommitted = "" ∨ st.selectedInstance = "") := by
    rintro (h | h)
    exacts [hroot h, hinst h]
  have hguard2 : ¬(st.includeVanilla = false ∧ st.includeMods = false ∧
      st.includeResourcepacks = false) := by
    rintro ⟨h1, h2, h3⟩
    rcases htoggles with h | h | h <;> simp_all
  set stL : AppState :=
    { st with lastScanConfigKeyRef := some (scanConfigKey st), isStartingScan := true }
    with hstLdef
  have hstart : startScan st forceRescan resp
      = startScanLocked stL (startScanReq st forceRescan) resp := by
    unfold startScan
    rw [if_neg hguard1, if_neg hguard2, hstLdef]
  have hLprev : stL.activeScanIdRef = st.activeScanIdRef := by
    rw [hstLdef]
  unfold StartScanOrdering
  cases hprev : st.activeScanIdRef with
  | none =>
      have hL : startScan st forceRescan resp
          = startScanCleared stL (startScanReq st forceRescan) resp [] :=
        hstart.trans (startScanLocked_none stL _ resp (hLprev.trans hprev))
      obtain ⟨rest, hrest⟩ :=
        startScanCleared_trace stL (startScanReq st forceRescan) resp []
      have htr : (startScan st forceRescan resp).2
          = (startScanReq st forceRescan, clearedScanState stL) :: rest := by
        rw [hL, hrest, List.nil_append]
      constructor
      · intro p hp hpne
        exact absurd hp (by simp)
      · refine ⟨0, clearedScanState stL, ?_, presentationCleared_clearedScanState stL, ?_⟩
        · rw [htr]
          rfl
        · intro j c s hj
          exact absurd hj (Nat.not_lt_zero j)
  | some p =>
      by_cases hpe : p = ""
      · subst hpe
        have hL : startScan st forceRescan resp
            = startScanCleared stL (startScanReq st forceRescan) resp [] :=
          hstart.trans (startScanLocked_empty stL _ resp (hLprev.trans hprev))
        obtain ⟨rest, hrest⟩ :=
          startScanCleared_trace stL (startScanReq st forceRescan) resp []
        have htr : (startScan st forceRescan resp).2
            = (startScanReq st forceRescan, clearedScanState stL) :: rest := by
          rw [hL, hrest, List.nil_append]
        constructor
        · intro p' hp' hpne
          obtain rfl : "" = p' := Option.some.inj hp'
          exact absurd rfl hpne.symm
        · refine ⟨0, clearedScanState stL, ?_, presentationCleared_clearedScanState stL, ?_⟩
          · rw [htr]
            rfl
          · intro j c s hj
            exact absurd hj (Nat.not_lt_zero j)
      · set stW : AppState := { stL with statusLine := "Stopping previous scan..." }
          with hstWdef
        have hL : startScan st forceRescan resp
            = startScanCleared stW (startScanReq st forceRescan) resp
                [(BackendCall.cancelScan p, stL), (BackendCall.waitForStop p, stW)] := by
          rw [hstart, startScanLocked_some stL _ resp (hLprev.trans hprev) hpe, hstWdef]
        obtain ⟨rest, hrest⟩ :=
          startScanCleared_trace stW (startScanReq st forceRescan) resp
            [(BackendCall.cancelScan p, stL), (BackendCall.waitForStop p, stW)]
        have htr : (startScan st forceRescan resp).2
            = (BackendCall.cancelScan p, stL) :: (BackendCall.waitForStop p, stW)
              :: (startScanReq st forceRescan, clearedScanState stW) :: rest := by
          rw [hL, hrest]
          rfl
        constructor
        · intro p' hp' hpne
          obtain rfl : p = p' := Option.some.inj hp'
          refine ⟨stL, stW, ?_, ?_⟩
          · rw [htr]
            rfl
          · rw [htr]
            rfl
        · refine ⟨2, clearedScanState stW, ?_, presentationCleared_clearedScanState stW, ?_⟩
          · rw [htr]
            rfl
          · intro j c s hj hget
            rw [htr] at hget
            interval_cases j
            · have h2 : (BackendCall.cancelScan p, stL) = (c, s) :=
                Option.some.inj hget
              exact ⟨p, rfl, Or.inl (congrArg Prod.fst h2).symm⟩
            · have h2 : (BackendCall.waitForStop p, stW) = (c, s) :=
                Option.some.inj hget
              exact ⟨p, rfl, Or.inr (congrArg Prod.fst h2).symm⟩

/-- Witness for C2 at a state with a previously active scan and a fresh
`start_scan` response. -/
theorem startScan_resets_before_start_witness :
    stWithPrev.prismRootCommitted ≠ "" ∧ stWithPrev.selectedInstance ≠ "" ∧
      stWithPrev.includeVanilla = true ∧
      StartScanOrdering stWithPrev false (Except.ok ⟨"scan-1", false⟩) :=
  ⟨by decide, by decide, by decide,
   startScan_resets_before_start stWithPrev false (Except.ok ⟨"scan-1", false⟩)
     (by decide) (by decide) (Or.inl (by decide))⟩

end MAE
